import Mathlib

/-!
Verification of the microgame session core: the `BaseMicrogame` round
controller (win/fail bookkeeping, countdown, end-of-round state update),
the session progression (lives, score, speed multiplier), and the
recency-weighted round selector of `TransitionScene`.

The definitions below are a shallow embedding of the TypeScript source:
  - `GameState` and `INITIAL_GAME_STATE` mirror `GameConfig.ts`.
  - `MicrogameState` and its operations mirror `BaseMicrogame`
    (`init`, `setWinState`, `setFailState`, the timer callback, `endGame`).
    Presentation-only effects (text, tweens, audio, camera shake) are not
    modelled; the abstract `cleanupControls` callback and the
    `gameTimer.remove()` call are modelled by an invocation counter
    `cleanupCount` and a `timerActive` flag, so that the exactly-once
    cleanup property can be stated.
  - The selector functions mirror `TransitionScene.showNextGameControls`
    and `TransitionScene.transitionToGame`; the `Math.random()` draw is an
    explicit rational parameter, and `Phaser.Utils.Array.GetRandom` is an
    explicit index parameter.
Numbers follow the source: JS numbers holding integer counters become
`Int`, and the speed multiplier (stepped by 0.2) becomes `ℚ`.
-/

namespace VibeWare

/-- The `GameState` record of `GameConfig.ts`. The optional fields
`previousGameKey` and `recentGames` are modelled as `Option` and as a plain
list respectively (the code initializes `recentGames` to `[]` on first use). -/
structure GameState where
  lives : Int
  score : Int
  currentGame : Int
  speed : ℚ
  gamesCompleted : Int
  debugMode : Bool
  previousGameKey : Option String
  recentGames : List String
deriving Repr, DecidableEq

/-- The `INITIAL_GAME_STATE` constant of `GameConfig.ts`. -/
def INITIAL_GAME_STATE : GameState :=
  { lives := 4
    score := 0
    currentGame := 0
    speed := 1
    gamesCompleted := 0
    debugMode := false
    previousGameKey := none
    recentGames := [] }

/-- The `MicrogameInfo` record of `GameConfig.ts` (one catalog entry). -/
structure MicrogameInfo where
  key : String
  name : String
  prompt : String
  description : String
  controls : String
deriving Repr, DecidableEq

/-- The per-round state of `BaseMicrogame`: session state plus the per-round
flags and countdown. `cleanupCount` counts invocations of the abstract
`cleanupControls` hook and `timerActive` tracks whether `gameTimer` is still
scheduled; both instrument effects that the source performs through callbacks. -/
structure MicrogameState where
  gameState : GameState
  timeRemaining : Int
  hasWon : Bool
  hasFailed : Bool
  gameEnded : Bool
  gameReady : Bool
  cleanupCount : Nat
  timerActive : Bool
deriving Repr, DecidableEq

namespace BaseMicrogame

/-- The `init(data)` method of `BaseMicrogame`: adopt the passed game state and
reset the per-round flags; `timeRemaining` is set to `getGameDuration()`,
passed here as `dur`. -/
def init (dur : Int) (gs : GameState) : MicrogameState :=
  { gameState := gs
    timeRemaining := dur
    hasWon := false
    hasFailed := false
    gameEnded := false
    gameReady := false
    cleanupCount := 0
    timerActive := false }

/-- The body of the `delayedCall` in `create()`: after the prompt, the game is
set up, `startTimer()` schedules the countdown, and `gameReady` is set. -/
def startRound (s : MicrogameState) : MicrogameState :=
  { s with gameReady := true, timerActive := true }

/-- The `setWinState()` method: guarded by `!gameEnded && !hasWon` only
(the guard does not consult `hasFailed`). -/
def setWinState (s : MicrogameState) : MicrogameState :=
  if !s.gameEnded && !s.hasWon then { s with hasWon := true } else s

/-- The `setFailState()` method: guarded by `!gameEnded && !hasFailed` only
(the guard does not consult `hasWon`). -/
def setFailState (s : MicrogameState) : MicrogameState :=
  if !s.gameEnded && !s.hasFailed then { s with hasFailed := true } else s

/-- The resolution condition computed in `endGame()`:
`const won = this.hasWon && !this.hasFailed`. -/
def roundWon (s : MicrogameState) : Bool :=
  s.hasWon && !s.hasFailed

/-- The session-state update block of `endGame()`: on a win, `score += 100`,
`gamesCompleted++`, and every 5th completed game steps the speed by 0.2 up to
the cap 3; otherwise `lives--`. -/
def applyOutcomeToGameState (won : Bool) (gs : GameState) : GameState :=
  if won then
    let gsA : GameState :=
      { gs with score := gs.score + 100, gamesCompleted := gs.gamesCompleted + 1 }
    if 0 < gsA.gamesCompleted ∧ gsA.gamesCompleted % 5 = 0 then
      { gsA with speed := min (gsA.speed + 1 / 5) 3 }
    else gsA
  else
    { gs with lives := gs.lives - 1 }

/-- The `endGame()` method: an early return when `gameEnded` is already set;
otherwise it sets `gameEnded`, removes the timer, runs `cleanupControls()`
(counted by `cleanupCount`), and applies the outcome to the session state. -/
def endGame (s : MicrogameState) : MicrogameState :=
  if s.gameEnded then s
  else
    { s with
        gameEnded := true
        timerActive := false
        cleanupCount := s.cleanupCount + 1
        gameState := applyOutcomeToGameState (roundWon s) s.gameState }

/-- The countdown callback registered by `startTimer()`: every tick subtracts
50 ms from `timeRemaining` and calls `endGame()` once it reaches zero; a
removed timer fires no more. -/
def timerTick (s : MicrogameState) : MicrogameState :=
  if s.timerActive then
    let s1 : MicrogameState := { s with timeRemaining := s.timeRemaining - 50 }
    if s1.timeRemaining ≤ 0 then endGame s1 else s1
  else s

/-- The scene the `delayedCall` at the end of `endGame()` transitions to. -/
inductive NextScene where
  | title
  | transition
deriving Repr, DecidableEq

/-- The destination chosen at the end of `endGame()`: `TitleScene` in debug
mode, `TitleScene` when `lives <= 0`, and `TransitionScene` otherwise. -/
def nextSceneAfter (gs : GameState) : NextScene :=
  if gs.debugMode then NextScene.title
  else if gs.lives ≤ 0 then NextScene.title
  else NextScene.transition

end BaseMicrogame

open BaseMicrogame

/-- One full round viewed at the session level: a round whose flags at timer
expiry are `w` (`hasWon`) and `f` (`hasFailed`) resolves through `endGame`,
yielding the updated session state. -/
def applyOutcome (w f : Bool) (gs : GameState) : MicrogameState :=
  endGame
    { gameState := gs
      timeRemaining := 0
      hasWon := w
      hasFailed := f
      gameEnded := false
      gameReady := true
      cleanupCount := 0
      timerActive := true }

/-- The sequence of session states produced by playing the given rounds in
order, where each round is summarized by its final `(hasWon, hasFailed)`
flags; the session stops as soon as `endGame` transitions to the title
scene rather than the transition scene. -/
def sessionTrace : List (Bool × Bool) → GameState → List GameState
  | [], _ => []
  | (w, f) :: rs, gs =>
      let gs1 := (applyOutcome w f gs).gameState
      gs1 ::
        (if nextSceneAfter gs1 = NextScene.title then [] else sessionTrace rs gs1)

/-- The `HISTORY_SIZE` constant computed in `TransitionScene`:
`Math.min(3, Math.floor(MICROGAMES.length / 2))`. -/
def HISTORY_SIZE (catalogSize : Nat) : Nat :=
  min 3 (catalogSize / 2)

/-- Which branch of `showNextGameControls` performs the selection. -/
inductive SelectorPath where
  | small
  | weighted
deriving Repr, DecidableEq

/-- The branch condition of `showNextGameControls`:
`if (MICROGAMES.length <= HISTORY_SIZE + 1)` takes the small-catalog
fallback, otherwise the weighted selection. -/
def selectorPath (catalogSize : Nat) : SelectorPath :=
  if catalogSize ≤ HISTORY_SIZE catalogSize + 1 then SelectorPath.small
  else SelectorPath.weighted

/-- JavaScript `Array.prototype.indexOf` on the recent-games list: the index
of the first occurrence, or `none` where the source gets `-1`. -/
def jsIndexOf (key : String) : List String → Option Nat
  | [] => none
  | x :: xs => if x == key then some 0 else (jsIndexOf key xs).map (· + 1)

/-- The weight given to one candidate in `showNextGameControls`: 100 for a
game absent from `recentGames`, otherwise `age * 20` where
`age = recentGames.length - recentIndex`. -/
def gameWeight (recent : List String) (key : String) : Nat :=
  match jsIndexOf key recent with
  | none => 100
  | some i => (recent.length - i) * 20

/-- The `gameWeights` array built in `showNextGameControls`. -/
def gameWeights (games : List MicrogameInfo) (recent : List String) :
    List (MicrogameInfo × Nat) :=
  games.map (fun g => (g, gameWeight recent g.key))

/-- The `totalWeight` reduction in `showNextGameControls`. -/
def totalWeight (l : List (MicrogameInfo × Nat)) : Nat :=
  l.foldl (fun s gw => s + gw.2) 0

/-- The cumulative-subtraction loop of `showNextGameControls`: starting from
the draw `r`, subtract each weight in turn and select the first candidate at
which the running value drops to 0 or below. -/
def selectWeighted : List (MicrogameInfo × Nat) → ℚ → Option MicrogameInfo
  | [], _ => none
  | (g, w) :: rest, r =>
      if r - (w : ℚ) ≤ 0 then some g else selectWeighted rest (r - (w : ℚ))

/-- The candidate pool of the small-catalog fallback: all games, filtered to
exclude `previousGameKey` when it is set and the catalog has more than one
entry. -/
def fallbackPool (games : List MicrogameInfo) (prev : Option String) :
    List MicrogameInfo :=
  match prev with
  | some p => if 1 < games.length then games.filter (fun g => g.key ≠ p) else games
  | none => games

/-- The selection logic of `TransitionScene.showNextGameControls`, with the
`Math.random()` draw made explicit: `r` is the draw scaled into
`[0, totalWeight)` for the weighted branch, and `i` indexes the uniform
`GetRandom` pick used by the small-catalog branch and by the post-loop
fallback. Returns `none` when the catalog is empty. -/
def showNextGameControls (games : List MicrogameInfo) (gs : GameState)
    (r : ℚ) (i : Nat) : Option MicrogameInfo :=
  if games.length = 0 then none
  else
    match selectorPath games.length with
    | SelectorPath.small =>
        let pool := fallbackPool games gs.previousGameKey
        pool[i % pool.length]?
    | SelectorPath.weighted =>
        match selectWeighted (gameWeights games gs.recentGames) r with
        | some g => some g
        | none => games[i % games.length]?

/-- The history update in `TransitionScene.transitionToGame`: push the chosen
key and `shift()` (drop the oldest, at the front) once the length exceeds
`HISTORY_SIZE`. -/
def updateRecentGames (catalogSize : Nat) (recent : List String)
    (key : String) : List String :=
  if HISTORY_SIZE catalogSize < (recent ++ [key]).length then (recent ++ [key]).tail
  else recent ++ [key]

/-- Modelled from the spec for comparison with `selectorPath`: the spec says
the weighted path is taken exactly when the catalog has more entries than
`2 × historySize`. -/
def specWeightedPath (catalogSize : Nat) : SelectorPath :=
  if 2 * HISTORY_SIZE catalogSize < catalogSize then SelectorPath.weighted
  else SelectorPath.small

/-- A concrete catalog entry used in counterexamples and witnesses. -/
def gA : MicrogameInfo :=
  { key := "CatchGame", name := "Catch", prompt := "CATCH!",
    description := "Catch the star", controls := "Mouse to move" }

/-- A concrete catalog entry used in counterexamples and witnesses. -/
def gB : MicrogameInfo :=
  { key := "TypeGame", name := "Type", prompt := "TYPE!",
    description := "Type the word", controls := "Keyboard" }

/-- A concrete catalog entry used in counterexamples and witnesses. -/
def gC : MicrogameInfo :=
  { key := "DodgeGame", name := "Dodge", prompt := "DODGE!",
    description := "Dodge the blocks", controls := "Arrow keys" }

/-- A concrete catalog entry used in counterexamples and witnesses. -/
def gD : MicrogameInfo :=
  { key := "FlapGame", name := "Flap", prompt := "FLAP!",
    description := "Stay airborne", controls := "Mouse to flap" }

/-- A concrete session state whose recent history and previous key are the
`CatchGame` round, used in selector counterexamples. -/
def gsRecentCatch : GameState :=
  { INITIAL_GAME_STATE with
      recentGames := ["CatchGame"]
      previousGameKey := some "CatchGame" }

/-! ### Helper lemmas about the round controller -/

lemma setWinState_gameEnded (s : MicrogameState) :
    (setWinState s).gameEnded = s.gameEnded := by
  unfold setWinState; split <;> rfl

lemma setFailState_gameEnded (s : MicrogameState) :
    (setFailState s).gameEnded = s.gameEnded := by
  unfold setFailState; split <;> rfl

lemma setWinState_gameState (s : MicrogameState) :
    (setWinState s).gameState = s.gameState := by
  unfold setWinState; split <;> rfl

lemma setFailState_gameState (s : MicrogameState) :
    (setFailState s).gameState = s.gameState := by
  unfold setFailState; split <;> rfl

lemma endGame_of_ended {s : MicrogameState} (h : s.gameEnded = true) :
    endGame s = s := by
  unfold endGame; simp [h]

lemma endGame_gameEnded (s : MicrogameState) :
    (endGame s).gameEnded = true := by
  unfold endGame; split <;> simp_all

lemma endGame_idem (s : MicrogameState) :
    endGame (endGame s) = endGame s :=
  endGame_of_ended (endGame_gameEnded s)

lemma endGame_of_not_ended {s : MicrogameState} (h : s.gameEnded = false) :
    endGame s =
      { s with
          gameEnded := true
          timerActive := false
          cleanupCount := s.cleanupCount + 1
          gameState := applyOutcomeToGameState (roundWon s) s.gameState } := by
  unfold endGame; simp [h]

lemma applyOutcomeToGameState_lives (won : Bool) (gs : GameState) :
    (applyOutcomeToGameState won gs).lives =
      (if won then gs.lives else gs.lives - 1) := by
  unfold applyOutcomeToGameState
  cases won <;> simp <;> split <;> rfl

lemma applyOutcomeToGameState_score (won : Bool) (gs : GameState) :
    (applyOutcomeToGameState won gs).score =
      (if won then gs.score + 100 else gs.score) := by
  unfold applyOutcomeToGameState
  cases won <;> simp <;> split <;> rfl

lemma applyOutcomeToGameState_gamesCompleted (won : Bool) (gs : GameState) :
    (applyOutcomeToGameState won gs).gamesCompleted =
      (if won then gs.gamesCompleted + 1 else gs.gamesCompleted) := by
  unfold applyOutcomeToGameState
  cases won <;> simp <;> split <;> rfl

lemma applyOutcomeToGameState_debugMode (won : Bool) (gs : GameState) :
    (applyOutcomeToGameState won gs).debugMode = gs.debugMode := by
  unfold applyOutcomeToGameState
  cases won <;> simp <;> split <;> rfl

lemma applyOutcomeToGameState_speed (won : Bool) (gs : GameState) :
    (applyOutcomeToGameState won gs).speed =
      (if won = true ∧ 0 < gs.gamesCompleted + 1 ∧ (gs.gamesCompleted + 1) % 5 = 0
       then min (gs.speed + 1 / 5) 3 else gs.speed) := by
  unfold applyOutcomeToGameState
  cases won <;> simp <;> split <;> simp_all

lemma applyOutcome_gameState (w f : Bool) (gs : GameState) :
    (applyOutcome w f gs).gameState = applyOutcomeToGameState (w && !f) gs := by
  unfold applyOutcome endGame roundWon
  simp

/-! ### Claim C1 -/

/-- C1 counterexample: with a fresh round, calling `setWinState` and then
`setFailState` is not a no-op on the second call: both flags end up true
(so `hasWon XOR hasFailed` fails), the resolution is not the first declared
outcome (the round is not counted as won), and `endGame` decrements lives. -/
theorem c1_first_outcome_counterexample :
    setFailState (setWinState (init 5000 INITIAL_GAME_STATE)) ≠
        setWinState (init 5000 INITIAL_GAME_STATE) ∧
    (setFailState (setWinState (init 5000 INITIAL_GAME_STATE))).hasWon = true ∧
    (setFailState (setWinState (init 5000 INITIAL_GAME_STATE))).hasFailed = true ∧
    roundWon (setFailState (setWinState (init 5000 INITIAL_GAME_STATE))) = false ∧
    (endGame (setFailState (setWinState (init 5000 INITIAL_GAME_STATE)))).gameState.lives
      = 3 := by
  decide

/-- C1 amended: once `endGame` has run, both setters are no-ops, and a repeated
call to the same setter is a no-op; but each setter guards only its own flag,
so before the round ends a call to the other setter still sets its flag: after
`declareWin` then `declareFail` (or vice versa) both `hasWon` and `hasFailed`
are true and the round resolves as not-won (`won = hasWon && !hasFailed`),
hence as failed, regardless of the call order. -/
theorem c1_outcome_declaration_semantics (s : MicrogameState) :
    (s.gameEnded = true → setWinState s = s ∧ setFailState s = s) ∧
    setWinState (setWinState s) = setWinState s ∧
    setFailState (setFailState s) = setFailState s ∧
    (s.gameEnded = false →
      (setFailState (setWinState s)).hasWon = true ∧
      (setFailState (setWinState s)).hasFailed = true ∧
      roundWon (setFailState (setWinState s)) = false ∧
      (setWinState (setFailState s)).hasWon = true ∧
      (setWinState (setFailState s)).hasFailed = true ∧
      roundWon (setWinState (setFailState s)) = false) := by
  rcases s with ⟨gs, t, w, f, e, rdy, c, ta⟩
  cases e <;> cases w <;> cases f <;>
    simp [setWinState, setFailState, roundWon]

/-- C1 witness: the amended statement instantiated at a fresh round. -/
theorem c1_outcome_declaration_semantics_witness :
    roundWon (setFailState (setWinState (init 4000 INITIAL_GAME_STATE))) = false :=
  ((c1_outcome_declaration_semantics (init 4000 INITIAL_GAME_STATE)).2.2.2 rfl).2.2.1

/-! ### Claim C2 -/

/-- C2: at resolution the round is won iff `hasWon` is set and `hasFailed` is
not (a round that set neither flag is not won, hence treated as failed); a won
outcome adds exactly 100 to the score and 1 to `gamesCompleted` with lives
unchanged, and a failed outcome subtracts exactly 1 life with score and
`gamesCompleted` unchanged; the countdown callback invokes `endGame` exactly
when the remaining time reaches zero. -/
theorem c2_end_of_round_accounting (s : MicrogameState) (h : s.gameEnded = false) :
    (roundWon s = true ↔ (s.hasWon = true ∧ s.hasFailed = false)) ∧
    (s.hasWon = false → roundWon s = false) ∧
    (roundWon s = true →
      (endGame s).gameState.score = s.gameState.score + 100 ∧
      (endGame s).gameState.gamesCompleted = s.gameState.gamesCompleted + 1 ∧
      (endGame s).gameState.lives = s.gameState.lives) ∧
    (roundWon s = false →
      (endGame s).gameState.lives = s.gameState.lives - 1 ∧
      (endGame s).gameState.score = s.gameState.score ∧
      (endGame s).gameState.gamesCompleted = s.gameState.gamesCompleted) ∧
    (s.timerActive = true → s.timeRemaining ≤ 50 →
      timerTick s = endGame { s with timeRemaining := s.timeRemaining - 50 }) := by
  refine ⟨?_, ?_, ?_, ?_, ?_⟩
  · unfold roundWon
    cases hw : s.hasWon <;> cases hf : s.hasFailed <;> simp
  · intro hw
    unfold roundWon
    simp [hw]
  · intro hwon
    rw [endGame_of_not_ended h]
    simp [applyOutcomeToGameState_score, applyOutcomeToGameState_gamesCompleted,
      applyOutcomeToGameState_lives, hwon]
  · intro hwon
    rw [endGame_of_not_ended h]
    simp [applyOutcomeToGameState_score, applyOutcomeToGameState_gamesCompleted,
      applyOutcomeToGameState_lives, hwon]
  · intro hact htime
    unfold timerTick
    have : s.timeRemaining - 50 ≤ 0 := by omega
    simp [hact, this]

/-- C2 witness: a round that declared a win gains exactly 100 points. -/
theorem c2_end_of_round_accounting_witness :
    (endGame (setWinState (startRound (init 5000 INITIAL_GAME_STATE)))).gameState.score
      = (setWinState (startRound (init 5000 INITIAL_GAME_STATE))).gameState.score + 100 :=
  ((c2_end_of_round_accounting
      (setWinState (startRound (init 5000 INITIAL_GAME_STATE))) rfl).2.2.1 rfl).1

/-! ### Claim C8 -/

/-- C8: `endGame` is guarded so that a second invocation performs no cleanup
and no state mutation (it is the identity on an ended round, and idempotent);
the first invocation, on any outcome path (any combination of flags and any
debug setting), removes the timer and runs `cleanupControls` exactly once, and
over any positive number of invocations the cleanup still runs exactly once. -/
theorem c8_cleanup_exactly_once (s : MicrogameState) :
    (s.gameEnded = true → endGame s = s) ∧
    endGame (endGame s) = endGame s ∧
    (endGame s).gameEnded = true ∧
    (s.gameEnded = false →
      (endGame s).cleanupCount = s.cleanupCount + 1 ∧
      (endGame s).timerActive = false) ∧
    (∀ k : ℕ, 0 < k → (endGame^[k] s).cleanupCount = (endGame s).cleanupCount) := by
  refine ⟨fun h => endGame_of_ended h, endGame_idem s, endGame_gameEnded s, ?_, ?_⟩
  · intro h
    rw [endGame_of_not_ended h]
    exact ⟨rfl, rfl⟩
  · have hiter : ∀ k : ℕ, endGame^[k + 1] s = endGame s := by
      intro k
      induction k with
      | zero => simp
      | succ n ih =>
          rw [Function.iterate_succ_apply', ih, endGame_idem]
    intro k hk
    obtain ⟨n, rfl⟩ : ∃ n, k = n + 1 := ⟨k - 1, by omega⟩
    rw [hiter]

/-- C8 witness: three invocations of `endGame` on a fresh running round still
perform exactly one cleanup. -/
theorem c8_cleanup_exactly_once_witness :
    (endGame^[3] (startRound (init 5000 INITIAL_GAME_STATE))).cleanupCount
      = (endGame (startRound (init 5000 INITIAL_GAME_STATE))).cleanupCount :=
  (c8_cleanup_exactly_once (startRound (init 5000 INITIAL_GAME_STATE))).2.2.2.2
    3 (by norm_num)

/-! ### Claim C9 -/

/-- C9: a round is counted as won at resolution iff `hasWon` is true and
`hasFailed` is false (the score bonus is granted exactly in that case); if both
setters are called during a round, in either order, both flags end up true
(each guard checks only its own flag) and the round is counted as failed,
decrementing lives, regardless of which setter was called first. -/
theorem c9_both_flags_resolve_failed (s : MicrogameState) (h : s.gameEnded = false) :
    (roundWon s = true ↔ (s.hasWon = true ∧ s.hasFailed = false)) ∧
    ((endGame s).gameState.score = s.gameState.score + 100 ↔ roundWon s = true) ∧
    ((setFailState (setWinState s)).hasWon = true ∧
     (setFailState (setWinState s)).hasFailed = true ∧
     (endGame (setFailState (setWinState s))).gameState.lives
       = s.gameState.lives - 1) ∧
    ((setWinState (setFailState s)).hasWon = true ∧
     (setWinState (setFailState s)).hasFailed = true ∧
     (endGame (setWinState (setFailState s))).gameState.lives
       = s.gameState.lives - 1) := by
  refine ⟨?_, ?_, ?_, ?_⟩
  · unfold roundWon
    cases hw : s.hasWon <;> cases hf : s.hasFailed <;> simp
  · rw [endGame_of_not_ended h]
    simp only [applyOutcomeToGameState_score]
    cases hwon : roundWon s <;> simp
  · rcases s with ⟨gs, t, w, f, e, rdy, c, ta⟩
    cases e with
    | true => simp at h
    | false =>
        cases w <;> cases f <;>
          simp [setWinState, setFailState, endGame, roundWon,
            applyOutcomeToGameState_lives]
  · rcases s with ⟨gs, t, w, f, e, rdy, c, ta⟩
    cases e with
    | true => simp at h
    | false =>
        cases w <;> cases f <;>
          simp [setWinState, setFailState, endGame, roundWon,
            applyOutcomeToGameState_lives]

/-- C9 witness: both setters called on a fresh round, win first; the round
still loses a life. -/
theorem c9_both_flags_resolve_failed_witness :
    (endGame (setFailState (setWinState (startRound (init 3000 INITIAL_GAME_STATE))))).gameState.lives
      = (startRound (init 3000 INITIAL_GAME_STATE)).gameState.lives - 1 :=
  ((c9_both_flags_resolve_failed (startRound (init 3000 INITIAL_GAME_STATE)) rfl).2.2.1).2.2

/-! ### Helper lemmas about session traces -/

lemma nextSceneAfter_eq_title (gs : GameState) :
    nextSceneAfter gs = NextScene.title ↔ (gs.debugMode = true ∨ gs.lives ≤ 0) := by
  unfold nextSceneAfter
  by_cases hd : gs.debugMode = true
  · simp [hd]
  · simp only [Bool.not_eq_true] at hd
    by_cases hl : gs.lives ≤ 0 <;> simp [hd, hl]

lemma sessionTrace_invariant (P : GameState → Prop)
    (hstep : ∀ gs w f, P gs → P (applyOutcome w f gs).gameState) :
    ∀ (rounds : List (Bool × Bool)) (gs : GameState), P gs →
      ∀ gs' ∈ sessionTrace rounds gs, P gs' := by
  intro rounds
  induction rounds with
  | nil =>
      intro gs _ gs' hm
      simp [sessionTrace] at hm
  | cons rf rs ih =>
      intro gs hP gs' hm
      obtain ⟨w, f⟩ := rf
      simp only [sessionTrace] at hm
      rcases List.mem_cons.mp hm with hm1 | hm2
      · exact hm1 ▸ hstep gs w f hP
      · split at hm2
        · simp at hm2
        · exact ih _ (hstep gs w f hP) gs' hm2

lemma sessionTrace_lives_nonneg :
    ∀ (rounds : List (Bool × Bool)) (gs : GameState),
      0 < gs.lives → gs.debugMode = false →
      ∀ gs' ∈ sessionTrace rounds gs, 0 ≤ gs'.lives ∧ gs'.debugMode = false := by
  intro rounds
  induction rounds with
  | nil =>
      intro gs _ _ gs' hm
      simp [sessionTrace] at hm
  | cons rf rs ih =>
      intro gs hpos hdbg gs' hm
      obtain ⟨w, f⟩ := rf
      have hdbg1 : (applyOutcome w f gs).gameState.debugMode = false := by
        rw [applyOutcome_gameState, applyOutcomeToGameState_debugMode]
        exact hdbg
      have hlive1 : gs.lives - 1 ≤ (applyOutcome w f gs).gameState.lives := by
        rw [applyOutcome_gameState, applyOutcomeToGameState_lives]
        split <;> omega
      simp only [sessionTrace] at hm
      rcases List.mem_cons.mp hm with hm1 | hm2
      · subst hm1
        exact ⟨by omega, hdbg1⟩
      · split at hm2
        · simp at hm2
        · rename_i hnt
          have hpos1 : 0 < (applyOutcome w f gs).gameState.lives := by
            rcases lt_or_le 0 (applyOutcome w f gs).gameState.lives with h | h
            · exact h
            · exact absurd ((nextSceneAfter_eq_title _).mpr (Or.inr h)) hnt
          exact ih _ hpos1 hdbg1 gs' hm2

/-! ### Claim C3 -/

/-- C3: starting a non-debug session with 4 lives, every session state reached
after a round has a non-negative number of lives; a reached state moves to the
title scene (session over) exactly when its lives are 0; and from any live
non-debug state a won round never ends the session. -/
theorem c3_lives_safe (rounds : List (Bool × Bool)) (gs : GameState)
    (hl : gs.lives = 4) (hd : gs.debugMode = false) :
    (∀ gs' ∈ sessionTrace rounds gs, 0 ≤ gs'.lives) ∧
    (∀ gs' ∈ sessionTrace rounds gs,
      (nextSceneAfter gs' = NextScene.title ↔ gs'.lives = 0)) ∧
    (∀ (gs0 : GameState) (w f : Bool), 0 < gs0.lives → gs0.debugMode = false →
      (w && !f) = true →
      nextSceneAfter (applyOutcome w f gs0).gameState = NextScene.transition) := by
  have hpos : 0 < gs.lives := by omega
  have hinv := sessionTrace_lives_nonneg rounds gs hpos hd
  refine ⟨fun gs' hm => (hinv gs' hm).1, ?_, ?_⟩
  · intro gs' hm
    obtain ⟨hge, hdbg⟩ := hinv gs' hm
    rw [nextSceneAfter_eq_title]
    constructor
    · rintro (h | h)
      · rw [hdbg] at h; exact absurd h (by simp)
      · omega
    · intro h
      exact Or.inr (by omega)
  · intro gs0 w f hpos0 hdbg0 hwf
    have hlives : (applyOutcome w f gs0).gameState.lives = gs0.lives := by
      rw [applyOutcome_gameState, applyOutcomeToGameState_lives, hwf]
      simp
    have hdbg1 : (applyOutcome w f gs0).gameState.debugMode = false := by
      rw [applyOutcome_gameState, applyOutcomeToGameState_debugMode]
      exact hdbg0
    unfold nextSceneAfter
    rw [hlives, hdbg1]
    have hnle : ¬ gs0.lives ≤ 0 := by omega
    simp [hnle]

/-- C3 witness: after a single failed round from the initial state, the title
transition happens exactly when lives have reached 0 (they are 3, so it does
not). -/
theorem c3_lives_safe_witness :
    nextSceneAfter (applyOutcome false true INITIAL_GAME_STATE).gameState
        = NextScene.title ↔
      (applyOutcome false true INITIAL_GAME_STATE).gameState.lives = 0 :=
  (c3_lives_safe [(false, true)] INITIAL_GAME_STATE rfl rfl).2.1 _
    (by simp [sessionTrace])

/-! ### Helper lemmas about the speed multiplier -/

/-- Speeds reachable from the starting value 1: an exact number of 0.2 steps,
at most 10 of them (10 steps reach the cap 3). -/
def SpeedOk (gs : GameState) : Prop :=
  ∃ k : ℕ, k ≤ 10 ∧ gs.speed = 1 + (k : ℚ) * (1 / 5)

lemma speedOk_bounds {gs : GameState} (h : SpeedOk gs) :
    1 ≤ gs.speed ∧ gs.speed ≤ 3 := by
  obtain ⟨k, hk, hs⟩ := h
  have hk10 : (k : ℚ) ≤ 10 := by exact_mod_cast hk
  have hk0 : (0 : ℚ) ≤ (k : ℚ) := by positivity
  constructor <;> (rw [hs]; nlinarith)

lemma speedOk_step (won : Bool) {gs : GameState} (h : SpeedOk gs) :
    SpeedOk (applyOutcomeToGameState won gs) := by
  obtain ⟨k, hk, hs⟩ := h
  unfold SpeedOk
  rw [applyOutcomeToGameState_speed]
  split
  · rcases Nat.lt_or_ge k 10 with hlt | hge
    · refine ⟨k + 1, by omega, ?_⟩
      have hk9 : (k : ℚ) ≤ 9 := by exact_mod_cast Nat.le_of_lt_succ hlt
      have : gs.speed + 1 / 5 ≤ 3 := by rw [hs]; nlinarith
      rw [min_eq_left this, hs]
      push_cast
      ring
    · have hk10 : k = 10 := by omega
      refine ⟨10, le_refl 10, ?_⟩
      subst hk10
      have h3 : gs.speed = 3 := by rw [hs]; norm_num
      rw [h3]
      norm_num
  · exact ⟨k, hk, hs⟩

lemma speed_mono (won : Bool) {gs : GameState} (h : gs.speed ≤ 3) :
    gs.speed ≤ (applyOutcomeToGameState won gs).speed := by
  rw [applyOutcomeToGameState_speed]
  split
  · exact le_min (by linarith) h
  · exact le_refl _

/-! ### Claim C4 -/

/-- C4: in a session starting at speed 1, the speed multiplier of every reached
state stays in the interval [1, 3]; a step never decreases it (from any state
within the cap); and on a win it is stepped to `min (speed + 0.2) 3` exactly
when the resulting `gamesCompleted` is a positive multiple of 5 — the step is
exactly 0.2 while below the cap 3 and leaves the speed at 3 once there — and
in every other case the speed is unchanged. -/
theorem c4_speed_progression (rounds : List (Bool × Bool)) (gs : GameState)
    (hs : gs.speed = 1) :
    (∀ gs' ∈ sessionTrace rounds gs, 1 ≤ gs'.speed ∧ gs'.speed ≤ 3) ∧
    (∀ (gs0 : GameState) (w f : Bool), gs0.speed ≤ 3 →
      gs0.speed ≤ (applyOutcome w f gs0).gameState.speed) ∧
    (∀ (gs0 : GameState) (w f : Bool), SpeedOk gs0 →
      ((w && !f) = true → 0 < gs0.gamesCompleted + 1 →
          (gs0.gamesCompleted + 1) % 5 = 0 →
        (applyOutcome w f gs0).gameState.speed = min (gs0.speed + 1 / 5) 3 ∧
        (gs0.speed < 3 →
          (applyOutcome w f gs0).gameState.speed = gs0.speed + 1 / 5) ∧
        (gs0.speed = 3 → (applyOutcome w f gs0).gameState.speed = 3)) ∧
      (((w && !f) = false ∨ ¬ (gs0.gamesCompleted + 1) % 5 = 0 ∨
          ¬ 0 < gs0.gamesCompleted + 1) →
        (applyOutcome w f gs0).gameState.speed = gs0.speed)) := by
  refine ⟨?_, ?_, ?_⟩
  · have hok : SpeedOk gs := ⟨0, by omega, by rw [hs]; norm_num⟩
    intro gs' hm
    exact speedOk_bounds
      (sessionTrace_invariant SpeedOk
        (fun gs1 w f h1 => by
          rw [applyOutcome_gameState]; exact speedOk_step _ h1)
        rounds gs hok gs' hm)
  · intro gs0 w f h3
    rw [applyOutcome_gameState]
    exact speed_mono _ h3
  · intro gs0 w f hok
    constructor
    · intro hwf hpos hmod
      have hstep : (applyOutcome w f gs0).gameState.speed
          = min (gs0.speed + 1 / 5) 3 := by
        rw [applyOutcome_gameState, applyOutcomeToGameState_speed]
        simp [hwf, hpos, hmod]
      refine ⟨hstep, ?_, ?_⟩
      · intro hlt
        obtain ⟨k, hk, hsk⟩ := hok
        have hklt : k < 10 := by
          by_contra hge
          have : k = 10 := by omega
          subst this
          rw [hsk] at hlt
          norm_num at hlt
        have hk9 : (k : ℚ) ≤ 9 := by exact_mod_cast Nat.le_of_lt_succ hklt
        have hle : gs0.speed + 1 / 5 ≤ 3 := by rw [hsk]; nlinarith
        rw [hstep, min_eq_left hle]
      · intro h3
        rw [hstep, h3]
        norm_num
    · intro hcase
      rw [applyOutcome_gameState, applyOutcomeToGameState_speed]
      rcases hcase with h | h | h
      · simp [h]
      · split
        · rename_i hc
          exact absurd hc.2.2 h
        · rfl
      · split
        · rename_i hc
          exact absurd hc.2.1 h
        · rfl

/-- C4 witness: the 5th completed game steps the speed from 1 to exactly 1.2. -/
theorem c4_speed_progression_witness :
    (applyOutcome true false
        { INITIAL_GAME_STATE with gamesCompleted := 4 }).gameState.speed
      = { INITIAL_GAME_STATE with gamesCompleted := 4 }.speed + 1 / 5 :=
  (((c4_speed_progression [] INITIAL_GAME_STATE rfl).2.2
      { INITIAL_GAME_STATE with gamesCompleted := 4 } true false
      ⟨0, by omega, by norm_num [INITIAL_GAME_STATE]⟩).1
    rfl (by norm_num [INITIAL_GAME_STATE]) (by norm_num [INITIAL_GAME_STATE])).2.1
    (by norm_num [INITIAL_GAME_STATE])

/-! ### Helper lemmas about the selector -/

lemma jsIndexOf_lt_length {key : String} :
    ∀ {l : List String} {i : Nat}, jsIndexOf key l = some i → i < l.length := by
  intro l
  induction l with
  | nil => intro i h; simp [jsIndexOf] at h
  | cons x xs ih =>
      intro i h
      unfold jsIndexOf at h
      split at h
      · simp only [Option.some.injEq] at h
        subst h
        simp
      · simp only [Option.map_eq_some'] at h
        obtain ⟨j, hj, rfl⟩ := h
        have := ih hj
        simp only [List.length_cons]
        omega

lemma gameWeight_ge_20 (recent : List String) (key : String) :
    20 ≤ gameWeight recent key := by
  unfold gameWeight
  split
  · omega
  · rename_i i h
    have hi := jsIndexOf_lt_length h
    omega

lemma totalWeight_foldl_shift :
    ∀ (l : List (MicrogameInfo × Nat)) (a : Nat),
      List.foldl (fun s gw => s + gw.2) a l = a + totalWeight l := by
  intro l
  induction l with
  | nil => intro a; simp [totalWeight]
  | cons x xs ih =>
      intro a
      simp only [List.foldl_cons]
      rw [ih (a + x.2)]
      have h2 : totalWeight (x :: xs) = x.2 + totalWeight xs := by
        unfold totalWeight
        simp only [List.foldl_cons, Nat.zero_add]
        exact ih x.2
      rw [h2]
      omega

lemma totalWeight_cons (x : MicrogameInfo × Nat) (l : List (MicrogameInfo × Nat)) :
    totalWeight (x :: l) = x.2 + totalWeight l := by
  unfold totalWeight
  simp only [List.foldl_cons, Nat.zero_add]
  exact totalWeight_foldl_shift l x.2

lemma selectWeighted_isSome :
    ∀ (l : List (MicrogameInfo × Nat)) (r : ℚ), 0 ≤ r →
      r < (totalWeight l : ℚ) → (selectWeighted l r).isSome = true := by
  intro l
  induction l with
  | nil =>
      intro r h0 hlt
      simp [totalWeight] at hlt
      linarith
  | cons gw rest ih =>
      intro r h0 hlt
      obtain ⟨g, w⟩ := gw
      unfold selectWeighted
      split
      · rfl
      · rename_i hgt
        push_neg at hgt
        have h0w : 0 ≤ r - (w : ℚ) := le_of_lt hgt
        have hltw : r - (w : ℚ) < (totalWeight rest : ℚ) := by
          rw [totalWeight_cons] at hlt
          push_cast at hlt
          linarith
        exact ih _ h0w hltw

lemma selectWeighted_mem :
    ∀ (l : List (MicrogameInfo × Nat)) (r : ℚ) (g : MicrogameInfo),
      selectWeighted l r = some g → ∃ w, (g, w) ∈ l := by
  intro l
  induction l with
  | nil => intro r g h; simp [selectWeighted] at h
  | cons gw rest ih =>
      intro r g h
      obtain ⟨g0, w0⟩ := gw
      unfold selectWeighted at h
      split at h
      · refine ⟨w0, ?_⟩
        simp at h
        simp [h]
      · obtain ⟨w, hw⟩ := ih _ _ h
        exact ⟨w, List.mem_cons_of_mem _ hw⟩

lemma gameWeights_mem {games : List MicrogameInfo} {recent : List String}
    {g : MicrogameInfo} {w : Nat} (h : (g, w) ∈ gameWeights games recent) :
    g ∈ games ∧ w = gameWeight recent g.key := by
  unfold gameWeights at h
  obtain ⟨a, ha, heq⟩ := List.mem_map.mp h
  obtain ⟨h1, h2⟩ := Prod.mk.injEq .. ▸ heq
  cases Prod.mk.injEq .. ▸ heq
  exact ⟨h1 ▸ ha, by rw [← h1]; omega⟩

/-! ### Claim C5 -/

/-- C5 counterexample: a catalog of 3 rounds with history size 1 satisfies
`catalogSize = 2 * historySize + 1`; with `CatchGame` the most recent entry of
`recentGames`, the weighted selection still returns `CatchGame` on the draw
10 — the most recently played round is re-selected on the immediately
following call. -/
theorem c5_most_recent_reselected_counterexample :
    (3 : Nat) = 2 * HISTORY_SIZE 3 + 1 ∧
    gsRecentCatch.recentGames.getLast? = some "CatchGame" ∧
    gA.key = "CatchGame" ∧
    selectorPath 3 = SelectorPath.weighted ∧
    showNextGameControls [gA, gB, gC] gsRecentCatch 10 0 = some gA := by
  refine ⟨by decide, by decide, by decide, by decide, ?_⟩
  norm_num [showNextGameControls, selectorPath, HISTORY_SIZE, gameWeights,
    gameWeight, jsIndexOf, selectWeighted, gsRecentCatch, INITIAL_GAME_STATE,
    gA, gB, gC]

/-- C5 amended: every candidate in the weighted selection has weight at least
20 — so no candidate with weight 0 exists or is ever selected, and any
candidate returned by the weighted selection has weight at least 20 — but the
most recently played round receives weight 20, not 0, and therefore can be
re-selected (as the counterexample shows). -/
theorem c5_selected_weight_positive (games : List MicrogameInfo)
    (recent : List String) (r : ℚ) (g : MicrogameInfo)
    (hsel : selectWeighted (gameWeights games recent) r = some g) :
    (∀ g' ∈ games, 20 ≤ gameWeight recent g'.key) ∧
    g ∈ games ∧
    20 ≤ gameWeight recent g.key ∧
    gameWeight recent g.key ≠ 0 := by
  obtain ⟨w, hw⟩ := selectWeighted_mem _ _ _ hsel
  obtain ⟨hg, _⟩ := gameWeights_mem hw
  have h20 := gameWeight_ge_20 recent g.key
  exact ⟨fun g' _ => gameWeight_ge_20 recent g'.key, hg, h20, by omega⟩

/-- C5 witness: the amended statement at a concrete two-round catalog with an
empty history. -/
theorem c5_selected_weight_positive_witness :
    20 ≤ gameWeight [] gA.key :=
  (c5_selected_weight_positive [gA, gB] [] 50 gA
    (by norm_num [gameWeights, gameWeight, jsIndexOf, selectWeighted, gA, gB])).2.2.1

/-! ### Claim C6 -/

/-- C6 counterexample: at catalog size 4 (history size 2) the code takes the
weighted path even though 4 is not more than `2 * historySize = 4`: the path
condition modelled from the spec disagrees with the condition in the code, and with
the previous round `CatchGame` the weighted path can return `CatchGame`, which
the uniform fallback described by the claim could never do (it is excluded
from the fallback pool). -/
theorem c6_path_condition_counterexample :
    selectorPath 4 = SelectorPath.weighted ∧
    specWeightedPath 4 = SelectorPath.small ∧
    ¬ (2 * HISTORY_SIZE 4 < 4) ∧
    showNextGameControls [gA, gB, gC, gD] gsRecentCatch 5 0 = some gA ∧
    gA ∉ fallbackPool [gA, gB, gC, gD] (some gA.key) := by
  refine ⟨by decide, by decide, by decide, ?_, by decide⟩
  norm_num [showNextGameControls, selectorPath, HISTORY_SIZE, gameWeights,
    gameWeight, jsIndexOf, selectWeighted, gsRecentCatch, INITIAL_GAME_STATE,
    gA, gB, gC, gD]

/-- C6 amended: the selector takes the weighted path exactly when the catalog
has more entries than `historySize + 1` (not `2 * historySize`), with
`historySize = min(3, floor(catalogSize / 2))`; in the other case it draws
uniformly from the pool of all rounds excluding only the single
immediately-previous round (not the full history), and when no previous round
is recorded the pool is the whole catalog. -/
theorem c6_selector_branching (n : Nat) (games : List MicrogameInfo)
    (p : String) (g : MicrogameInfo) :
    (selectorPath n = SelectorPath.weighted ↔ HISTORY_SIZE n + 1 < n) ∧
    HISTORY_SIZE n = min 3 (n / 2) ∧
    (1 < games.length →
      (g ∈ fallbackPool games (some p) ↔ g ∈ games ∧ g.key ≠ p)) ∧
    fallbackPool games none = games := by
  refine ⟨?_, rfl, ?_, rfl⟩
  · unfold selectorPath
    split
    · rename_i hle
      simp only [reduceCtorEq, false_iff]
      omega
    · rename_i hgt
      simp only [true_iff]
      omega
  · intro hlen
    unfold fallbackPool
    simp [hlen, List.mem_filter]

/-- C6 witness: the branching facts at a concrete small catalog: `TypeGame`
stays in the fallback pool when `CatchGame` was the previous round. -/
theorem c6_selector_branching_witness :
    gB ∈ fallbackPool [gA, gB] (some gA.key) :=
  ((c6_selector_branching 2 [gA, gB] gA.key gB).2.2.1 (by decide)).mpr
    ⟨by decide, by decide⟩

/-! ### Claim C7 -/

/-- C7: the history update of `transitionToGame` pushes the chosen key; while
the history is below `historySize = min(3, floor(catalogSize / 2))` nothing is
evicted, and once it would exceed `historySize` the single oldest entry (the
front) is evicted, so a history within the bound stays within the bound. -/
theorem c7_history_bounded (n : Nat) (recent : List String) (key : String)
    (h : recent.length ≤ HISTORY_SIZE n) :
    (updateRecentGames n recent key).length ≤ HISTORY_SIZE n ∧
    (recent.length < HISTORY_SIZE n →
      updateRecentGames n recent key = recent ++ [key]) ∧
    (recent.length = HISTORY_SIZE n →
      updateRecentGames n recent key = (recent ++ [key]).tail) ∧
    (recent ≠ [] → recent.length = HISTORY_SIZE n →
      updateRecentGames n recent key = recent.tail ++ [key]) := by
  have hlen : (recent ++ [key]).length = recent.length + 1 := by simp
  refine ⟨?_, ?_, ?_, ?_⟩
  · unfold updateRecentGames
    split
    · rename_i hgt
      rw [hlen] at hgt
      simp only [List.length_tail, hlen]
      omega
    · rename_i hle
      rw [hlen] at hle
      omega
  · intro hlt
    unfold updateRecentGames
    split
    · rename_i hgt
      rw [hlen] at hgt
      omega
    · rfl
  · intro heq
    unfold updateRecentGames
    split
    · rfl
    · rename_i hle
      rw [hlen] at hle
      omega
  · intro hne heq
    unfold updateRecentGames
    split
    · cases recent with
      | nil => exact absurd rfl hne
      | cons x xs => simp
    · rename_i hle
      rw [hlen] at hle
      omega

/-- C7 witness: a full history of 3 entries (catalog size 7) evicts its oldest
entry when a new key is pushed. -/
theorem c7_history_bounded_witness :
    updateRecentGames 7 ["r1", "r2", "r3"] "r4" = ["r2", "r3", "r4"] :=
  (c7_history_bounded 7 ["r1", "r2", "r3"] "r4" (by decide)).2.2.2
    (by decide) (by decide)

/-! ### Claim C10 -/

/-- C10: in the weighted branch every candidate weight is at least 20, the
total weight of a non-empty catalog is positive, the draw
`Math.random() * totalWeight` (with `Math.random()` in [0, 1)) lies strictly
below the total weight, and the cumulative-subtraction loop therefore always
selects some game — the post-loop uniform fallback is unreachable. -/
theorem c10_weighted_loop_total (games : List MicrogameInfo)
    (recent : List String) (u : ℚ)
    (hne : games ≠ []) (h0 : 0 ≤ u) (h1 : u < 1) :
    (∀ gw ∈ gameWeights games recent, 20 ≤ gw.2) ∧
    20 * games.length ≤ totalWeight (gameWeights games recent) ∧
    0 < totalWeight (gameWeights games recent) ∧
    u * (totalWeight (gameWeights games recent) : ℚ)
      < (totalWeight (gameWeights games recent) : ℚ) ∧
    (selectWeighted (gameWeights games recent)
        (u * (totalWeight (gameWeights games recent) : ℚ))).isSome = true := by
  have hall : ∀ gw ∈ gameWeights games recent, 20 ≤ gw.2 := by
    intro gw hgw
    obtain ⟨g, w⟩ := gw
    obtain ⟨_, hw⟩ := gameWeights_mem hgw
    rw [hw]
    exact gameWeight_ge_20 _ _
  have hbound : ∀ (l : List (MicrogameInfo × Nat)),
      (∀ gw ∈ l, 20 ≤ gw.2) → 20 * l.length ≤ totalWeight l := by
    intro l
    induction l with
    | nil => intro _; simp [totalWeight]
    | cons x xs ih =>
        intro hl
        rw [totalWeight_cons]
        have hx := hl x (List.mem_cons_self x xs)
        have hxs := ih (fun gw hgw => hl gw (List.mem_cons_of_mem x hgw))
        simp only [List.length_cons]
        omega
  have hlen : 0 < games.length := List.length_pos.mpr hne
  have hlenw : (gameWeights games recent).length = games.length := by
    unfold gameWeights
    simp
  have hge : 20 * games.length ≤ totalWeight (gameWeights games recent) := by
    rw [← hlenw]
    exact hbound _ hall
  have hpos : 0 < totalWeight (gameWeights games recent) := by omega
  have hposq : (0 : ℚ) < (totalWeight (gameWeights games recent) : ℚ) := by
    exact_mod_cast hpos
  have hlt : u * (totalWeight (gameWeights games recent) : ℚ)
      < (totalWeight (gameWeights games recent) : ℚ) := by
    calc u * (totalWeight (gameWeights games recent) : ℚ)
        < 1 * (totalWeight (gameWeights games recent) : ℚ) :=
          mul_lt_mul_of_pos_right h1 hposq
      _ = (totalWeight (gameWeights games recent) : ℚ) := one_mul _
  refine ⟨hall, hge, hpos, hlt, ?_⟩
  exact selectWeighted_isSome _ _ (mul_nonneg h0 (le_of_lt hposq)) hlt

/-- C10 witness: a one-round catalog with empty history and the draw 1/2. -/
theorem c10_weighted_loop_total_witness :
    (selectWeighted (gameWeights [gA] [])
        ((1 / 2 : ℚ) * (totalWeight (gameWeights [gA] []) : ℚ))).isSome = true :=
  (c10_weighted_loop_total [gA] [] (1 / 2) (by decide) (by norm_num)
    (by norm_num)).2.2.2.2

end VibeWare
